import Mathlib

/-!
Shallow embedding of the chip8-rs CHIP-8 interpreter
(src/registers.rs, src/memory.rs, src/display.rs, src/keyboard.rs,
src/interpreter.rs).

Machine integers are modelled as `Nat` with explicit `% 2^w` where the
source performs wrapping arithmetic; `u8` subtraction-with-saturation
(`saturating_sub`) is `Nat` subtraction. Rust operations that can panic
(out-of-bounds slice/array indexing) are modelled as `Option`-returning
functions, `none` standing for the panic. Stack-pointer arithmetic
(`sp += 1` / `sp -= 1` on `u8`) is modelled with wrapping (release-mode)
semantics; the array index bound checks that exist in both debug and
release builds are modelled as `Option` failures.
-/

namespace Chip8

/-- Register file, mirroring `Registers` in src/registers.rs: sixteen 8-bit
general registers `vx`, 16-bit index register `i`, 16-bit program counter
`pc`, 8-bit stack pointer `sp`, the two 8-bit timers, and a fixed 16-entry
stack of 16-bit return addresses. -/
structure Registers where
  vx : Fin 16 → Nat
  i : Nat
  pc : Nat
  sp : Nat
  delay : Nat
  sound : Nat
  stack : Fin 16 → Nat

/-- Mirrors `Registers::default()`: all fields zero. -/
def Registers.default : Registers :=
  { vx := fun _ => 0, i := 0, pc := 0, sp := 0, delay := 0, sound := 0,
    stack := fun _ => 0 }

/-- Mirrors `Registers::push` (src/registers.rs lines 25-29):
`sp += 1; stack[sp] = pc; pc = n`. The `u8` increment wraps; the array
store `stack[sp]` panics (`none`) when the incremented pointer is ≥ 16. -/
def Registers.push (r : Registers) (n : Nat) : Option Registers :=
  let sp' := (r.sp + 1) % 256
  if h : sp' < 16 then
    some { r with sp := sp',
                  stack := Function.update r.stack ⟨sp', h⟩ r.pc,
                  pc := n }
  else
    none

/-- Mirrors `Registers::pop` (src/registers.rs lines 32-35):
`pc = stack[sp]; sp -= 1`. The array read `stack[sp]` panics (`none`)
when `sp ≥ 16`; the `u8` decrement wraps (0 becomes 255). -/
def Registers.pop (r : Registers) : Option Registers :=
  if h : r.sp < 16 then
    some { r with pc := r.stack ⟨r.sp, h⟩, sp := (r.sp + 255) % 256 }
  else
    none

/-- Iterated `push`: performs `k` consecutive pushes of address `n`
(as `k` nested `2nnn` calls would). -/
def Registers.pushN (r : Registers) (n : Nat) : Nat → Option Registers
  | 0 => some r
  | k + 1 => (r.push n).bind fun r' => r'.pushN n k

end Chip8

namespace Chip8

/-- Font table `FONT_DATA` from src/memory.rs: 16 glyphs of 5 bytes each. -/
def FONT_DATA : List Nat :=
  [0xF0, 0x90, 0x90, 0x90, 0xF0,
   0x20, 0x60, 0x20, 0x20, 0x70,
   0xF0, 0x10, 0xF0, 0x80, 0xF0,
   0xF0, 0x10, 0xF0, 0x10, 0xF0,
   0x90, 0x90, 0xF0, 0x10, 0x10,
   0xF0, 0x80, 0xF0, 0x10, 0xF0,
   0xF0, 0x80, 0xF0, 0x90, 0xF0,
   0xF0, 0x10, 0x20, 0x40, 0x40,
   0xF0, 0x90, 0xF0, 0x90, 0xF0,
   0xF0, 0x90, 0xF0, 0x10, 0xF0,
   0xF0, 0x90, 0xF0, 0x90, 0x90,
   0xE0, 0x90, 0xE0, 0x90, 0xE0,
   0xF0, 0x80, 0x80, 0x80, 0xF0,
   0xE0, 0x90, 0x90, 0x90, 0xE0,
   0xF0, 0x80, 0xF0, 0x80, 0xF0,
   0xF0, 0x80, 0xF0, 0x80, 0x80]

/-- Address where ROMs are loaded (`START_ROM` in src/memory.rs). -/
def START_ROM : Nat := 0x200

/-- Memory is a 4096-byte array (`Memory` in src/memory.rs). -/
def Mem := Fin 4096 → Nat

/-- Mirrors `Memory::new` followed by `Memory::load_rom`: zeroed memory
with the font table copied to addresses 0..80 and the ROM bytes copied to
0x200..0x200+len. ROM input bytes are `u8`, hence the `% 256`. -/
def load_rom (bytes : List Nat) : Mem := fun a =>
  if (a : Nat) < FONT_DATA.length then FONT_DATA.getD a 0
  else if START_ROM ≤ (a : Nat) ∧ (a : Nat) < START_ROM + bytes.length then
    bytes.getD ((a : Nat) - START_ROM) 0 % 256
  else 0

end Chip8

namespace Chip8

/-- Display framebuffer: 64×32 booleans in row-major order
(`Display` in src/display.rs). -/
def Display := Fin 2048 → Bool

/-- Mirrors `Display::new`: all pixels unlit. -/
def Display.new : Display := fun _ => false

/-- Mirrors `Display::clear`: every pixel set to unlit. -/
def Display.clear (_d : Display) : Display := fun _ => false

/-- Mirrors `Display::compute_idx`: `y * width + x` with width 64. -/
def compute_idx (x y : Nat) : Nat := y * 64 + x

/-- Mirrors `Display::xor_pixel` (src/display.rs lines 26-33): XORs
`value` into the pixel at `(x, y)` and returns whether the pixel was
cleared (was lit, became unlit). The array index `y*64+x` is not reduced
modulo the display size; an index ≥ 2048 panics (`none`). -/
def xor_pixel (d : Display) (x y : Nat) (value : Bool) :
    Option (Display × Bool) :=
  let idx := compute_idx x y
  if h : idx < 2048 then
    let last_value := d ⟨idx, h⟩
    let new_value := xor last_value value
    some (Function.update d ⟨idx, h⟩ new_value, last_value && !new_value)
  else
    none

end Chip8

namespace Chip8

/-- The keyboard's blocking-wait state (`WaitingState` in src/keyboard.rs). -/
inductive WaitingState where
  | waiting : WaitingState
  | pressed (key : Nat) : WaitingState
  | none : WaitingState
deriving DecidableEq

/-- Mirrors `Keyboard` in src/keyboard.rs: 16 pressed flags plus the
blocking-wait state. -/
structure Keyboard where
  pressed_keys : Fin 16 → Bool
  waiting_state : WaitingState

/-- Mirrors `Keyboard::new`. -/
def Keyboard.new : Keyboard :=
  { pressed_keys := fun _ => false, waiting_state := WaitingState.none }

/-- Mirrors `Keyboard::is_pressed`: reads `pressed_keys[key]`. The `key`
is a full `u8`; an index ≥ 16 panics (`none`). -/
def Keyboard.is_pressed (k : Keyboard) (key : Nat) : Option Bool :=
  if h : key < 16 then some (k.pressed_keys ⟨key, h⟩) else none

/-- Mirrors `Keyboard::press_key`: sets the pressed flag. The waiting
state is not touched by a press. Index ≥ 16 panics (`none`). -/
def Keyboard.press_key (k : Keyboard) (key : Nat) : Option Keyboard :=
  if h : key < 16 then
    some { k with pressed_keys := Function.update k.pressed_keys ⟨key, h⟩ true }
  else none

/-- Mirrors `Keyboard::release_key`: clears the pressed flag, and if the
waiting state is `Waiting` it becomes `Pressed { key }`. -/
def Keyboard.release_key (k : Keyboard) (key : Nat) : Option Keyboard :=
  if h : key < 16 then
    some { pressed_keys := Function.update k.pressed_keys ⟨key, h⟩ false,
           waiting_state :=
             if k.waiting_state = WaitingState.waiting then
               WaitingState.pressed key
             else k.waiting_state }
  else none

/-- Mirrors `Keyboard::wait_for_keypress` (src/keyboard.rs lines 37-47):
`None` state starts a wait; `Pressed{key}` resolves it, returning the
key and going back to `None`; `Waiting` stays put. -/
def Keyboard.wait_for_keypress (k : Keyboard) : Option Nat × Keyboard :=
  if k.waiting_state = WaitingState.none then
    (Option.none, { k with waiting_state := WaitingState.waiting })
  else
    match k.waiting_state with
    | WaitingState.pressed key =>
        (some key, { k with waiting_state := WaitingState.none })
    | _ => (Option.none, k)

end Chip8

namespace Chip8

/-- Decoded instruction, one constructor per arm of the dispatch in
`Interpreter::step` (src/interpreter.rs lines 62-135); `unknown` is the
fall-through `_` arm. -/
inductive Instr where
  | cls : Instr
  | ret : Instr
  | jump (nnn : Nat) : Instr
  | call (nnn : Nat) : Instr
  | seImm (x : Fin 16) (kk : Nat) : Instr
  | sneImm (x : Fin 16) (kk : Nat) : Instr
  | seReg (x y : Fin 16) : Instr
  | ldImm (x : Fin 16) (kk : Nat) : Instr
  | addImm (x : Fin 16) (kk : Nat) : Instr
  | ldReg (x y : Fin 16) : Instr
  | orReg (x y : Fin 16) : Instr
  | andReg (x y : Fin 16) : Instr
  | xorReg (x y : Fin 16) : Instr
  | addReg (x y : Fin 16) : Instr
  | subReg (x y : Fin 16) : Instr
  | shrReg (x y : Fin 16) : Instr
  | subnReg (x y : Fin 16) : Instr
  | shlReg (x y : Fin 16) : Instr
  | sneReg (x y : Fin 16) : Instr
  | ldI (nnn : Nat) : Instr
  | jpV0 (nnn : Nat) : Instr
  | rnd (x : Fin 16) (kk : Nat) : Instr
  | drw (x y : Fin 16) (n : Nat) : Instr
  | skp (x : Fin 16) : Instr
  | sknp (x : Fin 16) : Instr
  | ldVxDt (x : Fin 16) : Instr
  | waitKey (x : Fin 16) : Instr
  | ldDtVx (x : Fin 16) : Instr
  | ldStVx (x : Fin 16) : Instr
  | ldFVx (x : Fin 16) : Instr
  | addI (x : Fin 16) : Instr
  | bcd (x : Fin 16) : Instr
  | stRegs (x : Fin 16) : Instr
  | ldRegs (x : Fin 16) : Instr
  | unknown : Instr
deriving DecidableEq

/-- Coerces a nibble (already < 16) into a register index. -/
def nib (n : Nat) : Fin 16 := ⟨n % 16, by omega⟩

/-- Mirrors the decode part of `Interpreter::step` (src/interpreter.rs
lines 53-135): nibble extraction and the dispatch, in source order. The
source reads `second_byte` directly from memory; for `u8` memory cells it
equals the low byte of the big-endian word, which is how it is computed
here. -/
def decode (cur : Nat) : Instr :=
  let first_nibble := (cur &&& 0xF000) >>> 12
  let second_nibble := (cur &&& 0x0F00) >>> 8
  let third_nibble := (cur &&& 0x00F0) >>> 4
  let fourth_nibble := cur &&& 0x000F
  let second_byte := cur &&& 0x00FF
  let bottom_tribble := cur &&& 0x0FFF
  if cur = 0x00E0 then Instr.cls
  else if cur = 0x00EE then Instr.ret
  else if first_nibble = 0x0 ∨ first_nibble = 0x1 then Instr.jump bottom_tribble
  else if first_nibble = 0x2 then Instr.call bottom_tribble
  else if first_nibble = 0x3 then Instr.seImm (nib second_nibble) second_byte
  else if first_nibble = 0x4 then Instr.sneImm (nib second_nibble) second_byte
  else if first_nibble = 0x5 ∧ fourth_nibble = 0 then
    Instr.seReg (nib second_nibble) (nib third_nibble)
  else if first_nibble = 0x6 then Instr.ldImm (nib second_nibble) second_byte
  else if first_nibble = 0x7 then Instr.addImm (nib second_nibble) second_byte
  else if first_nibble = 0x8 ∧ fourth_nibble = 0 then
    Instr.ldReg (nib second_nibble) (nib third_nibble)
  else if first_nibble = 0x8 ∧ fourth_nibble = 1 then
    Instr.orReg (nib second_nibble) (nib third_nibble)
  else if first_nibble = 0x8 ∧ fourth_nibble = 2 then
    Instr.andReg (nib second_nibble) (nib third_nibble)
  else if first_nibble = 0x8 ∧ fourth_nibble = 3 then
    Instr.xorReg (nib second_nibble) (nib third_nibble)
  else if first_nibble = 0x8 ∧ fourth_nibble = 4 then
    Instr.addReg (nib second_nibble) (nib third_nibble)
  else if first_nibble = 0x8 ∧ fourth_nibble = 5 then
    Instr.subReg (nib second_nibble) (nib third_nibble)
  else if first_nibble = 0x8 ∧ fourth_nibble = 6 then
    Instr.shrReg (nib second_nibble) (nib third_nibble)
  else if first_nibble = 0x8 ∧ fourth_nibble = 7 then
    Instr.subnReg (nib second_nibble) (nib third_nibble)
  else if first_nibble = 0x8 ∧ fourth_nibble = 0xE then
    Instr.shlReg (nib second_nibble) (nib third_nibble)
  else if first_nibble = 0x9 ∧ fourth_nibble = 0 then
    Instr.sneReg (nib second_nibble) (nib third_nibble)
  else if first_nibble = 0xA then Instr.ldI bottom_tribble
  else if first_nibble = 0xB then Instr.jpV0 bottom_tribble
  else if first_nibble = 0xC then Instr.rnd (nib second_nibble) second_byte
  else if first_nibble = 0xD then
    Instr.drw (nib second_nibble) (nib third_nibble) fourth_nibble
  else if first_nibble = 0xE ∧ second_byte = 0x9E then Instr.skp (nib second_nibble)
  else if first_nibble = 0xE ∧ second_byte = 0xA1 then Instr.sknp (nib second_nibble)
  else if first_nibble = 0xF ∧ second_byte = 0x07 then Instr.ldVxDt (nib second_nibble)
  else if first_nibble = 0xF ∧ second_byte = 0x0A then Instr.waitKey (nib second_nibble)
  else if first_nibble = 0xF ∧ second_byte = 0x15 then Instr.ldDtVx (nib second_nibble)
  else if first_nibble = 0xF ∧ second_byte = 0x18 then Instr.ldStVx (nib second_nibble)
  else if first_nibble = 0xF ∧ second_byte = 0x29 then Instr.ldFVx (nib second_nibble)
  else if first_nibble = 0xF ∧ second_byte = 0x1E then Instr.addI (nib second_nibble)
  else if first_nibble = 0xF ∧ second_byte = 0x33 then Instr.bcd (nib second_nibble)
  else if first_nibble = 0xF ∧ second_byte = 0x55 then Instr.stRegs (nib second_nibble)
  else if first_nibble = 0xF ∧ second_byte = 0x65 then Instr.ldRegs (nib second_nibble)
  else Instr.unknown

end Chip8

namespace Chip8

/-- Purely register-file-level handlers, mirroring the corresponding
`handle_*` methods of `Interpreter` (src/interpreter.rs). Arithmetic is
`u8`/`u16` arithmetic written with explicit `% 256` / `% 65536` where the
source wraps. Mirrors `handle_jump`. -/
def handle_jump (r : Registers) (n : Nat) : Registers := { r with pc := n }

/-- Mirrors `handle_skip_if_equal_immediate`. -/
def handle_skip_if_equal_immediate (r : Registers) (x : Fin 16) (k : Nat) :
    Registers :=
  if r.vx x = k then { r with pc := r.pc + 2 } else r

/-- Mirrors `handle_skip_if_not_equal_immediate`. -/
def handle_skip_if_not_equal_immediate (r : Registers) (x : Fin 16) (k : Nat) :
    Registers :=
  if r.vx x ≠ k then { r with pc := r.pc + 2 } else r

/-- Mirrors `handle_skip_if_equal_register`. -/
def handle_skip_if_equal_register (r : Registers) (x y : Fin 16) : Registers :=
  if r.vx x = r.vx y then { r with pc := r.pc + 2 } else r

/-- Mirrors `handle_load_register_immediate`. -/
def handle_load_register_immediate (r : Registers) (x : Fin 16) (k : Nat) :
    Registers :=
  { r with vx := Function.update r.vx x k }

/-- Mirrors `handle_add_register_immediate` (`wrapping_add` on `u8`). -/
def handle_add_register_immediate (r : Registers) (x : Fin 16) (k : Nat) :
    Registers :=
  { r with vx := Function.update r.vx x ((r.vx x + k) % 256) }

/-- Mirrors `handle_load_register_register`. -/
def handle_load_register_register (r : Registers) (x y : Fin 16) : Registers :=
  { r with vx := Function.update r.vx x (r.vx y) }

/-- Mirrors `handle_or_register_register`. -/
def handle_or_register_register (r : Registers) (x y : Fin 16) : Registers :=
  { r with vx := Function.update r.vx x (r.vx x ||| r.vx y) }

/-- Mirrors `handle_and_register_register`. -/
def handle_and_register_register (r : Registers) (x y : Fin 16) : Registers :=
  { r with vx := Function.update r.vx x (r.vx x &&& r.vx y) }

/-- Mirrors `handle_xor_register_register`. -/
def handle_xor_register_register (r : Registers) (x y : Fin 16) : Registers :=
  { r with vx := Function.update r.vx x (r.vx x ^^^ r.vx y) }

/-- Mirrors `handle_add_register_register` (src/interpreter.rs lines
253-265): the sum is written to `vx[x]` first, then the carry flag to
`vx[0xF]`. `overflowing_add` on `u8` carries exactly when the true sum
is ≥ 256. -/
def handle_add_register_register (r : Registers) (x y : Fin 16) : Registers :=
  let a := r.vx x
  let b := r.vx y
  let result := (a + b) % 256
  let overflow := 256 ≤ a + b
  let r1 := { r with vx := Function.update r.vx x result }
  { r1 with vx := Function.update r1.vx 15 (if overflow then 1 else 0) }

/-- Mirrors `handle_sub_register_register` (lines 271-284): wrapping
`u8` subtraction written to `vx[x]` first, then `VF := a > b`. -/
def handle_sub_register_register (r : Registers) (x y : Fin 16) : Registers :=
  let a := r.vx x
  let b := r.vx y
  let result := (a + 256 - b) % 256
  let r1 := { r with vx := Function.update r.vx x result }
  { r1 with vx := Function.update r1.vx 15 (if b < a then 1 else 0) }

/-- Mirrors `handle_shift_right_register_one` (lines 290-303): result
written first, then `VF :=` pre-shift low bit. -/
def handle_shift_right_register_one (r : Registers) (x _y : Fin 16) :
    Registers :=
  let a := r.vx x
  let underflow := a &&& 1 = 1
  let result := a / 2
  let r1 := { r with vx := Function.update r.vx x result }
  { r1 with vx := Function.update r1.vx 15 (if underflow then 1 else 0) }

/-- Mirrors `handle_sub_register_register_negated` (lines 309-322). -/
def handle_sub_register_register_negated (r : Registers) (x y : Fin 16) :
    Registers :=
  let a := r.vx x
  let b := r.vx y
  let result := (b + 256 - a) % 256
  let r1 := { r with vx := Function.update r.vx x result }
  { r1 with vx := Function.update r1.vx 15 (if a < b then 1 else 0) }

/-- Mirrors `handle_shift_left_register_one` (lines 328-341): the source
tests `a & 0b1000_0000 > 1`, reproduced literally; the `u8` left shift
discards the top bit (`% 256`). -/
def handle_shift_left_register_one (r : Registers) (x _y : Fin 16) :
    Registers :=
  let a := r.vx x
  let overflow := 1 < a &&& 128
  let result := a * 2 % 256
  let r1 := { r with vx := Function.update r.vx x result }
  { r1 with vx := Function.update r1.vx 15 (if overflow then 1 else 0) }

/-- Mirrors `handle_skip_if_not_equal_register`. -/
def handle_skip_if_not_equal_register (r : Registers) (x y : Fin 16) :
    Registers :=
  if r.vx x ≠ r.vx y then { r with pc := r.pc + 2 } else r

/-- Mirrors `handle_load_immediate_into_i`. -/
def handle_load_immediate_into_i (r : Registers) (n : Nat) : Registers :=
  { r with i := n }

/-- Mirrors `handle_jump_relative` (`wrapping_add` on `u16`). -/
def handle_jump_relative (r : Registers) (n : Nat) : Registers :=
  { r with pc := (n + r.vx 0) % 65536 }

/-- Mirrors `handle_store_delay_timer_register`. -/
def handle_store_delay_timer_register (r : Registers) (x : Fin 16) :
    Registers :=
  { r with vx := Function.update r.vx x r.delay }

/-- Mirrors `handle_load_delay_timer_register`. -/
def handle_load_delay_timer_register (r : Registers) (x : Fin 16) :
    Registers :=
  { r with delay := r.vx x }

/-- Mirrors `handle_load_sound_timer_register`. -/
def handle_load_sound_timer_register (r : Registers) (x : Fin 16) :
    Registers :=
  { r with sound := r.vx x }

/-- Mirrors `handle_load_digit_sprite_location` (src/interpreter.rs lines
484-486): the source computes `(x as u16).wrapping_mul(5)` from the
register INDEX `x`, not from the register value `vx[x]`. -/
def handle_load_digit_sprite_location (r : Registers) (x : Fin 16) :
    Registers :=
  { r with i := (x : Nat) * 5 % 65536 }

/-- Mirrors `handle_add_i_register` (`wrapping_add` on `u16`). -/
def handle_add_i_register (r : Registers) (x : Fin 16) : Registers :=
  { r with i := (r.i + r.vx x) % 65536 }

end Chip8


namespace Chip8

/-- The ChaCha8 seed constant from `Interpreter::with_rom`
(src/interpreter.rs line 32): `ChaCha8Rng::seed_from_u64(09122022)`. -/
def CHACHA_SEED : Nat := 9122022

/-- Model of the external `ChaCha8Rng` generator (crate `rand_chacha`,
not part of this repository): a cryptographic stream cipher RNG whose
output is a pure function of its seed/state. Its state is modelled as a
`Nat` and one `gen_range(0..=255)` draw as one deterministic step; the
concrete update rule is a stand-in — the properties proved here depend
only on the generator being a deterministic function of a state that is
seeded from the fixed constant. -/
def rng_next (s : Nat) : Nat × Nat :=
  let s' := (s * 6364136223846793005 + 1442695040888963407) % 18446744073709551616
  ((s' >>> 33) % 256, s')

/-- The full engine state, mirroring `Interpreter` (src/interpreter.rs
lines 13-19). -/
structure Interpreter where
  registers : Registers
  memory : Mem
  display : Display
  keyboard : Keyboard
  rng : Nat

/-- Mirrors `Interpreter::with_rom` (src/interpreter.rs lines 22-40):
fresh memory with font and ROM loaded, default registers with
`pc = 0x200`, cleared display, fresh keyboard, RNG seeded with the
constant 09122022. Copying a ROM larger than `4096 - 0x200` bytes into
memory panics (`none`). -/
def with_rom (bytes : List Nat) : Option Interpreter :=
  if bytes.length ≤ 4096 - START_ROM then
    some { registers := { Registers.default with pc := START_ROM },
           memory := load_rom bytes,
           display := Display.new,
           keyboard := Keyboard.new,
           rng := CHACHA_SEED }
  else Option.none

/-- Inner loop of `handle_draw_sprite` (src/interpreter.rs lines
400-409): XOR the 8 bits of one sprite byte into consecutive columns,
most-significant bit first (`mask` starts at 0b1000_0000 and is halved
each iteration, `col` increments). -/
def drawBits : Nat → Display → Nat → Nat → Nat → Nat → Bool →
    Option (Display × Bool)
  | 0, d, _, _, _, _, cleared => some (d, cleared)
  | k + 1, d, sprite, mask, col, row, cleared =>
    let value := decide (0 < sprite &&& mask)
    match xor_pixel d col row value with
    | Option.none => Option.none
    | some (d', was) => drawBits k d' sprite (mask / 2) (col + 1) row (cleared || was)

/-- Outer loop of `handle_draw_sprite` (src/interpreter.rs lines
392-412): one sprite byte per row, read from `memory[i + offset]`
(panics when the address is ≥ 4096), column restarting at `vx[x]` for
each row and `row` incrementing. -/
def drawRows (mem : Mem) (col0 iBase : Nat) :
    Nat → Nat → Nat → Display → Bool → Option (Display × Bool)
  | 0, _offset, _row, d, cleared => some (d, cleared)
  | n + 1, offset, row, d, cleared =>
    if h : iBase + offset < 4096 then
      let sprite := mem ⟨iBase + offset, h⟩
      match drawBits 8 d sprite 128 col0 row cleared with
      | Option.none => Option.none
      | some (d', c') => drawRows mem col0 iBase n (offset + 1) (row + 1) d' c'
    else Option.none

/-- Mirrors `handle_draw_sprite` (src/interpreter.rs lines 387-419):
runs the row loop starting at row `vx[y]`, column `vx[x]`, then writes
the collision flag to `vx[0xF]`. -/
def handle_draw_sprite (m : Interpreter) (x y : Fin 16) (n : Nat) :
    Option Interpreter :=
  let row := m.registers.vx y
  let col := m.registers.vx x
  match drawRows m.memory col m.registers.i n 0 row m.display false with
  | Option.none => Option.none
  | some (d', was_cleared) =>
    some { m with
           display := d',
           registers := { m.registers with
             vx := Function.update m.registers.vx 15
               (if was_cleared then 1 else 0) } }

/-- Mirrors `handle_random` (src/interpreter.rs lines 373-376): draw one
byte from the RNG, store `v & k` into `vx[x]`, advancing the RNG state. -/
def handle_random (m : Interpreter) (x : Fin 16) (k : Nat) : Interpreter :=
  let v := (rng_next m.rng).1
  { m with
    rng := (rng_next m.rng).2,
    registers := { m.registers with
      vx := Function.update m.registers.vx x (v &&& k) } }

/-- Mirrors `handle_skip_if_key_pressed`: reads `pressed_keys[vx[x]]`
(panics when `vx[x] ≥ 16`) and on a pressed key advances `pc` by 2. -/
def handle_skip_if_key_pressed (m : Interpreter) (x : Fin 16) :
    Option Interpreter :=
  (m.keyboard.is_pressed (m.registers.vx x)).map fun b =>
    if b then
      { m with registers := { m.registers with pc := m.registers.pc + 2 } }
    else m

/-- Mirrors `handle_skip_if_key_not_pressed`. -/
def handle_skip_if_key_not_pressed (m : Interpreter) (x : Fin 16) :
    Option Interpreter :=
  (m.keyboard.is_pressed (m.registers.vx x)).map fun b =>
    if b then m
    else { m with registers := { m.registers with pc := m.registers.pc + 2 } }

/-- Mirrors `handle_wait_for_keypress` (src/interpreter.rs lines
457-462): polls the keyboard's wait state; when it resolves with a key,
stores the key into `vx[x]` and advances `pc` by 2, otherwise leaves the
registers alone (only the keyboard's wait state may change). -/
def handle_wait_for_keypress (m : Interpreter) (x : Fin 16) : Interpreter :=
  match m.keyboard.wait_for_keypress with
  | (some keycode, kb') =>
      { m with
        keyboard := kb',
        registers := { m.registers with
          vx := Function.update m.registers.vx x keycode,
          pc := m.registers.pc + 2 } }
  | (Option.none, kb') => { m with keyboard := kb' }

/-- Mirrors `handle_load_bcd` (src/interpreter.rs lines 501-508): the
decimal digits of `vx[x]` written at `i`, `i+1`, `i+2` (panics when
`i + 2 ≥ 4096`). -/
def handle_load_bcd (m : Interpreter) (x : Fin 16) : Option Interpreter :=
  let i := m.registers.i
  let vx := m.registers.vx x
  if h : i + 2 < 4096 then
    let mem1 := Function.update m.memory ⟨i, by omega⟩ (vx / 100)
    let mem2 := Function.update mem1 ⟨i + 1, by omega⟩ (vx % 100 / 10)
    let mem3 := Function.update mem2 ⟨i + 2, h⟩ (vx % 10)
    some { m with memory := mem3 }
  else Option.none

/-- Loop of `handle_store_registers_in_memory` (src/interpreter.rs lines
516-518): `for offset in 0..=x { memory[i + offset] = vx[offset] }`,
panicking (`none`) on an out-of-range memory address. -/
def store_regs_loop (vx : Fin 16 → Nat) (iBase : Nat) :
    Nat → Nat → Mem → Option Mem
  | 0, _offset, mem => some mem
  | rem + 1, offset, mem =>
    if h : iBase + offset < 4096 ∧ offset < 16 then
      store_regs_loop vx iBase rem (offset + 1)
        (Function.update mem ⟨iBase + offset, h.1⟩ (vx ⟨offset, h.2⟩))
    else Option.none

/-- Mirrors `handle_store_registers_in_memory` (lines 514-519). -/
def handle_store_registers_in_memory (m : Interpreter) (x : Fin 16) :
    Option Interpreter :=
  (store_regs_loop m.registers.vx m.registers.i ((x : Nat) + 1) 0
      m.memory).map
    fun mem' => { m with memory := mem' }

/-- Loop of `handle_load_registers_from_memory` (lines 527-529):
`for offset in 0..=x { vx[offset] = memory[i + offset] }`. -/
def load_regs_loop (mem : Mem) (iBase : Nat) :
    Nat → Nat → (Fin 16 → Nat) → Option (Fin 16 → Nat)
  | 0, _offset, vx => some vx
  | rem + 1, offset, vx =>
    if h : iBase + offset < 4096 ∧ offset < 16 then
      load_regs_loop mem iBase rem (offset + 1)
        (Function.update vx ⟨offset, h.2⟩ (mem ⟨iBase + offset, h.1⟩))
    else Option.none

/-- Mirrors `handle_load_registers_from_memory` (lines 525-530). -/
def handle_load_registers_from_memory (m : Interpreter) (x : Fin 16) :
    Option Interpreter :=
  (load_regs_loop m.memory m.registers.i ((x : Nat) + 1) 0
      m.registers.vx).map
    fun vx' => { m with registers := { m.registers with vx := vx' } }

/-- The trailing `self.registers.pc += 2` of `Interpreter::step`
(src/interpreter.rs line 138), applied to every instruction that does
not return early. -/
def advance (m : Interpreter) : Interpreter :=
  { m with registers := { m.registers with pc := m.registers.pc + 2 } }

/-- Execute one decoded instruction, mirroring the dispatch in
`Interpreter::step` (src/interpreter.rs lines 62-138). Arms whose source
counterpart executes `return` skip the trailing `pc += 2` (`advance`);
the `_` arm (`unknown`) only prints to stderr, so here it merely falls
through to the advance. -/
def exec (inst : Instr) (m : Interpreter) : Option Interpreter :=
  match inst with
  | Instr.cls => some (advance { m with display := Display.clear m.display })
  | Instr.ret => m.registers.pop.map fun r => advance { m with registers := r }
  | Instr.jump n => some { m with registers := handle_jump m.registers n }
  | Instr.call n => (m.registers.push n).map fun r => { m with registers := r }
  | Instr.seImm x k =>
      some (advance { m with registers := handle_skip_if_equal_immediate m.registers x k })
  | Instr.sneImm x k =>
      some (advance { m with registers := handle_skip_if_not_equal_immediate m.registers x k })
  | Instr.seReg x y =>
      some (advance { m with registers := handle_skip_if_equal_register m.registers x y })
  | Instr.ldImm x k =>
      some (advance { m with registers := handle_load_register_immediate m.registers x k })
  | Instr.addImm x k =>
      some (advance { m with registers := handle_add_register_immediate m.registers x k })
  | Instr.ldReg x y =>
      some (advance { m with registers := handle_load_register_register m.registers x y })
  | Instr.orReg x y =>
      some (advance { m with registers := handle_or_register_register m.registers x y })
  | Instr.andReg x y =>
      some (advance { m with registers := handle_and_register_register m.registers x y })
  | Instr.xorReg x y =>
      some (advance { m with registers := handle_xor_register_register m.registers x y })
  | Instr.addReg x y =>
      some (advance { m with registers := handle_add_register_register m.registers x y })
  | Instr.subReg x y =>
      some (advance { m with registers := handle_sub_register_register m.registers x y })
  | Instr.shrReg x y =>
      some (advance { m with registers := handle_shift_right_register_one m.registers x y })
  | Instr.subnReg x y =>
      some (advance { m with registers := handle_sub_register_register_negated m.registers x y })
  | Instr.shlReg x y =>
      some (advance { m with registers := handle_shift_left_register_one m.registers x y })
  | Instr.sneReg x y =>
      some (advance { m with registers := handle_skip_if_not_equal_register m.registers x y })
  | Instr.ldI n =>
      some (advance { m with registers := handle_load_immediate_into_i m.registers n })
  | Instr.jpV0 n => some { m with registers := handle_jump_relative m.registers n }
  | Instr.rnd x k => some (advance (handle_random m x k))
  | Instr.drw x y n => (handle_draw_sprite m x y n).map advance
  | Instr.skp x => (handle_skip_if_key_pressed m x).map advance
  | Instr.sknp x => (handle_skip_if_key_not_pressed m x).map advance
  | Instr.ldVxDt x =>
      some (advance { m with registers := handle_store_delay_timer_register m.registers x })
  | Instr.waitKey x => some (handle_wait_for_keypress m x)
  | Instr.ldDtVx x =>
      some (advance { m with registers := handle_load_delay_timer_register m.registers x })
  | Instr.ldStVx x =>
      some (advance { m with registers := handle_load_sound_timer_register m.registers x })
  | Instr.ldFVx x =>
      some (advance { m with registers := handle_load_digit_sprite_location m.registers x })
  | Instr.addI x =>
      some (advance { m with registers := handle_add_i_register m.registers x })
  | Instr.bcd x => (handle_load_bcd m x).map advance
  | Instr.stRegs x => (handle_store_registers_in_memory m x).map advance
  | Instr.ldRegs x => (handle_load_registers_from_memory m x).map advance
  | Instr.unknown => some (advance m)

/-- Big-endian two-byte fetch at `[pc, pc+1]` (src/interpreter.rs line
48). Out-of-range fetches are guarded by the caller; out of range the
value is irrelevant (0). -/
def fetchWord (mem : Mem) (pc : Nat) : Nat :=
  if h : pc + 1 < 4096 then mem ⟨pc, by omega⟩ * 256 + mem ⟨pc + 1, h⟩ else 0

/-- Mirrors `Interpreter::step` (src/interpreter.rs lines 42-139): first
both timers saturating-decrement, then fetch (panicking, `none`, when the
two-byte read at `pc` leaves the 4096-byte space), decode and execute. -/
def step (m : Interpreter) : Option Interpreter :=
  let regs0 := { m.registers with
    delay := m.registers.delay - 1, sound := m.registers.sound - 1 }
  let m0 := { m with registers := regs0 }
  if regs0.pc + 1 < 4096 then
    exec (decode (fetchWord m0.memory regs0.pc)) m0
  else Option.none

/-- One host-visible event: a `step()` call or a key press/release fed
through `keyboard_mut()` (as src/main.rs does). -/
inductive Event where
  | step : Event
  | press (key : Nat) : Event
  | release (key : Nat) : Event

/-- Applies one event to the engine. -/
def applyEvent (e : Event) (m : Interpreter) : Option Interpreter :=
  match e with
  | Event.step => step m
  | Event.press k => (m.keyboard.press_key k).map fun kb => { m with keyboard := kb }
  | Event.release k => (m.keyboard.release_key k).map fun kb => { m with keyboard := kb }

/-- Runs a whole event trace (propagating a panic, `none`). -/
def runTrace (t : List Event) (o : Option Interpreter) : Option Interpreter :=
  t.foldl (fun acc e => acc.bind (applyEvent e)) o

/-- Iterated `step`. -/
def stepN : Nat → Option Interpreter → Option Interpreter
  | 0, o => o
  | k + 1, o => stepN k (o.bind step)

/-- Observation helpers used by concrete witnesses/counterexamples. -/
def obsPc (o : Option Interpreter) : Option Nat := o.map fun m => m.registers.pc

/-- Observes the stack pointer. -/
def obsSp (o : Option Interpreter) : Option Nat := o.map fun m => m.registers.sp

/-- Observes the index register. -/
def obsIdx (o : Option Interpreter) : Option Nat := o.map fun m => m.registers.i

/-- Observes one general-purpose register. -/
def obsVx (o : Option Interpreter) (x : Fin 16) : Option Nat :=
  o.map fun m => m.registers.vx x

/-- Observes one pixel of the framebuffer by linear index. -/
def obsPixel (o : Option Interpreter) (idx : Nat) : Option Bool :=
  o.bind fun m =>
    if h : idx < 2048 then some (m.display ⟨idx, h⟩) else Option.none

/-- Observes one stack slot. -/
def obsStack (o : Option Interpreter) (j : Fin 16) : Option Nat :=
  o.map fun m => m.registers.stack j

end Chip8

namespace Chip8

/-- Total memory read used in lemma statements: the byte at address `a`,
or 0 out of range. -/
def memGet (mem : Mem) (a : Nat) : Nat :=
  if h : a < 4096 then mem ⟨a, h⟩ else 0

/-- Bit `t` (most-significant first) of the sprite byte at address `a`,
matching the mask sequence `128, 64, …, 1` of the draw loop. -/
def spriteBit (mem : Mem) (a t : Nat) : Bool :=
  decide (0 < memGet mem a &&& (128 / 2 ^ t))

/-- Concrete engine used by witnesses: the state `with_rom` builds for a
small ROM, with the index register set to `i0`. -/
def testMachine (rom : List Nat) (i0 : Nat) : Interpreter :=
  { registers := { Registers.default with pc := START_ROM, i := i0 },
    memory := load_rom rom, display := Display.new,
    keyboard := Keyboard.new, rng := CHACHA_SEED }

/-- Concrete engine with a prescribed keyboard wait state, used by
witnesses. -/
def keyMachine (rom : List Nat) (w : WaitingState) : Interpreter :=
  { registers := { Registers.default with pc := START_ROM },
    memory := load_rom rom, display := Display.new,
    keyboard := { pressed_keys := fun _ => false, waiting_state := w },
    rng := CHACHA_SEED }

end Chip8

namespace Chip8

/-- Auxiliary: characterization of the inner (per-byte) draw loop. Under
in-bounds hypotheses it succeeds; each of the `k` target pixels is XORed
with the corresponding mask bit, all other pixels are untouched, the
cleared flag is monotone, and any lit target pixel hit by a set bit
forces the cleared flag. -/
theorem drawBits_spec (sprite : Nat) :
    ∀ (k : Nat) (d : Display) (mask col row : Nat) (cl : Bool)
      (hb : ∀ t, t < k → row * 64 + col + t < 2048),
      ∃ d' cl', drawBits k d sprite mask col row cl = some (d', cl') ∧
        (∀ t (ht : t < k),
          d' ⟨row * 64 + col + t, hb t ht⟩ =
            xor (d ⟨row * 64 + col + t, hb t ht⟩)
              (decide (0 < sprite &&& (mask / 2 ^ t)))) ∧
        (∀ j : Fin 2048, (∀ t, t < k → (j : Nat) ≠ row * 64 + col + t) →
          d' j = d j) ∧
        (cl = true → cl' = true) ∧
        (∀ t (ht : t < k),
          decide (0 < sprite &&& (mask / 2 ^ t)) = true →
          d ⟨row * 64 + col + t, hb t ht⟩ = true → cl' = true) := by
  intro k
  induction k with
  | zero =>
    intro d mask col row cl hb
    exact ⟨d, cl, rfl, by omega, fun j _ => rfl, fun h => h, by omega⟩
  | succ k ih =>
    intro d mask col row cl hb
    have h0 : row * 64 + col < 2048 := by have := hb 0 (by omega); omega
    have hstep : drawBits (k + 1) d sprite mask col row cl =
        drawBits k
          (Function.update d ⟨row * 64 + col, h0⟩
            (xor (d ⟨row * 64 + col, h0⟩) (decide (0 < sprite &&& mask))))
          sprite (mask / 2) (col + 1) row
          (cl || (d ⟨row * 64 + col, h0⟩ &&
            !(xor (d ⟨row * 64 + col, h0⟩) (decide (0 < sprite &&& mask))))) := by
      simp only [drawBits, xor_pixel, compute_idx]
      rw [dif_pos h0]
    obtain ⟨d', cl', hloop, hpt, hfr, hmono, hwit⟩ :=
      ih (Function.update d ⟨row * 64 + col, h0⟩
            (xor (d ⟨row * 64 + col, h0⟩) (decide (0 < sprite &&& mask))))
        (mask / 2) (col + 1) row
        (cl || (d ⟨row * 64 + col, h0⟩ &&
          !(xor (d ⟨row * 64 + col, h0⟩) (decide (0 < sprite &&& mask)))))
        (fun t ht => by have := hb (t + 1) (by omega); omega)
    refine ⟨d', cl', by rw [hstep]; exact hloop, ?_, ?_, ?_, ?_⟩
    · intro t ht
      match t with
      | 0 =>
        have hfix : (⟨row * 64 + col + 0, hb 0 ht⟩ : Fin 2048) =
            ⟨row * 64 + col, h0⟩ := by
          simp only [Fin.mk.injEq]; omega
        rw [hfix, hfr ⟨row * 64 + col, h0⟩ (fun t' ht' => by
          show row * 64 + col ≠ row * 64 + (col + 1) + t'; omega)]
        simp
      | Nat.succ s =>
        have hfix : (⟨row * 64 + col + (s + 1), hb (s + 1) ht⟩ : Fin 2048) =
            ⟨row * 64 + (col + 1) + s, by have := hb (s + 1) ht; omega⟩ := by
          simp only [Fin.mk.injEq]; omega
        have hmask : mask / 2 / 2 ^ s = mask / 2 ^ (s + 1) := by
          rw [Nat.div_div_eq_div_mul, pow_succ, mul_comm]
        rw [hfix, hpt s (by omega), hmask]
        congr 1
        rw [Function.update_noteq (Fin.ne_of_val_ne (by
          show row * 64 + (col + 1) + s ≠ row * 64 + col; omega))]
    · intro j hj
      rw [hfr j (fun t ht => by
        have := hj (t + 1) (by omega); omega)]
      rw [Function.update_noteq (Fin.ne_of_val_ne (by
        have := hj 0 (by omega)
        show (j : Nat) ≠ row * 64 + col
        omega))]
    · intro hcl
      exact hmono (by rw [hcl]; rfl)
    · intro t ht hbit hlit
      match t with
      | 0 =>
        apply hmono
        have hv : decide (0 < sprite &&& (mask / 2 ^ 0)) =
            decide (0 < sprite &&& mask) := by norm_num
        rw [hv] at hbit
        have hd : d ⟨row * 64 + col, h0⟩ = true := by
          have hfix : (⟨row * 64 + col + 0, hb 0 ht⟩ : Fin 2048) =
              ⟨row * 64 + col, h0⟩ := by
            simp only [Fin.mk.injEq]; omega
          rw [hfix] at hlit; exact hlit
        rw [hd, hbit]
        simp
      | Nat.succ s =>
        have hmask : mask / 2 / 2 ^ s = mask / 2 ^ (s + 1) := by
          rw [Nat.div_div_eq_div_mul, pow_succ, mul_comm]
        apply hwit s (by omega)
        · rw [hmask]; exact hbit
        · have hfix : (⟨row * 64 + (col + 1) + s, by
              have := hb (s + 1) ht; omega⟩ : Fin 2048) =
              ⟨row * 64 + col + (s + 1), hb (s + 1) ht⟩ := by
            simp only [Fin.mk.injEq]; omega
          rw [hfix]
          rw [Function.update_noteq (Fin.ne_of_val_ne (by
            show row * 64 + col + (s + 1) ≠ row * 64 + col; omega))]
          exact hlit

end Chip8

namespace Chip8

/-- Auxiliary: characterization of the outer (per-row) draw loop, one
sprite byte per row; within one draw all written pixel indices are
distinct, so each target pixel is XORed exactly once with its sprite
bit. -/
theorem drawRows_spec (mem : Mem) (col0 iBase : Nat) :
    ∀ (n offset row : Nat) (d : Display) (cl : Bool)
      (hmem : ∀ r, r < n → iBase + offset + r < 4096)
      (hb : ∀ r, r < n → ∀ t, t < 8 → (row + r) * 64 + col0 + t < 2048),
      ∃ d' cl', drawRows mem col0 iBase n offset row d cl = some (d', cl') ∧
        (∀ r (hr : r < n) t (ht : t < 8),
          d' ⟨(row + r) * 64 + col0 + t, hb r hr t ht⟩ =
            xor (d ⟨(row + r) * 64 + col0 + t, hb r hr t ht⟩)
              (spriteBit mem (iBase + offset + r) t)) ∧
        (∀ j : Fin 2048,
          (∀ r, r < n → ∀ t, t < 8 → (j : Nat) ≠ (row + r) * 64 + col0 + t) →
          d' j = d j) ∧
        (cl = true → cl' = true) ∧
        (∀ r (hr : r < n) t (ht : t < 8),
          spriteBit mem (iBase + offset + r) t = true →
          d ⟨(row + r) * 64 + col0 + t, hb r hr t ht⟩ = true →
          cl' = true) := by
  intro n
  induction n with
  | zero =>
    intro offset row d cl _hmem _hb
    exact ⟨d, cl, rfl, by omega, fun j _ => rfl, fun h => h, by omega⟩
  | succ k ih =>
    intro offset row d cl hmem hb
    have hm0 : iBase + offset < 4096 := by have := hmem 0 (by omega); omega
    have hmg : memGet mem (iBase + offset) = mem ⟨iBase + offset, hm0⟩ := by
      rw [memGet, dif_pos hm0]
    have hb0 : ∀ t, t < 8 → row * 64 + col0 + t < 2048 := fun t ht => by
      have := hb 0 (by omega) t ht; omega
    obtain ⟨d1, c1, hbits, hpt1, hfr1, hmono1, hwit1⟩ :=
      drawBits_spec (memGet mem (iBase + offset)) 8 d 128 col0 row cl hb0
    have hstep : drawRows mem col0 iBase (k + 1) offset row d cl =
        drawRows mem col0 iBase k (offset + 1) (row + 1) d1 c1 := by
      simp only [drawRows]
      rw [dif_pos hm0, ← hmg, hbits]
    obtain ⟨d', cl', hloop, hpt, hfr, hmono, hwit⟩ :=
      ih (offset + 1) (row + 1) d1 c1
        (fun r hr => by have := hmem (r + 1) (by omega); omega)
        (fun r hr t ht => by have := hb (r + 1) (by omega) t ht; omega)
    refine ⟨d', cl', by rw [hstep]; exact hloop, ?_, ?_, ?_, ?_⟩
    · intro r hr t ht
      match r with
      | 0 =>
        have hj : d' ⟨(row + 0) * 64 + col0 + t, hb 0 hr t ht⟩ =
            d1 ⟨row * 64 + col0 + t, hb0 t ht⟩ := by
          exact hfr ⟨row * 64 + col0 + t, hb0 t ht⟩ (fun r' hr' t' ht' => by
            show row * 64 + col0 + t ≠ (row + 1 + r') * 64 + col0 + t'
            omega)
        rw [hj, hpt1 t ht]
        rfl
      | Nat.succ s =>
        have hj : (⟨(row + (s + 1)) * 64 + col0 + t,
            hb (s + 1) hr t ht⟩ : Fin 2048) =
            ⟨(row + 1 + s) * 64 + col0 + t, by
              have := hb (s + 1) hr t ht; omega⟩ := by
          simp only [Fin.mk.injEq]; omega
        have ha : iBase + offset + (s + 1) = iBase + (offset + 1) + s := by
          omega
        rw [hj, ha, hpt s (by omega) t ht]
        have hd1 : d1 ⟨(row + 1 + s) * 64 + col0 + t, by
            have := hb (s + 1) hr t ht; omega⟩ =
            d ⟨(row + 1 + s) * 64 + col0 + t, by
              have := hb (s + 1) hr t ht; omega⟩ := by
          exact hfr1 _ (fun t' ht' => by
            show (row + 1 + s) * 64 + col0 + t ≠ row * 64 + col0 + t'
            omega)
        rw [hd1]
    · intro j hj
      have h1 : d' j = d1 j := by
        exact hfr j (fun r hr t ht => by
          have := hj (r + 1) (by omega) t ht; omega)
      rw [h1]
      exact hfr1 j (fun t ht => by
        have := hj 0 (by omega) t ht
        intro hc; rw [hc] at this; exact this (by omega))
    · intro hcl
      exact hmono (hmono1 hcl)
    · intro r hr t ht hbit hlit
      match r with
      | 0 =>
        apply hmono
        apply hwit1 t ht
        · exact hbit
        · exact hlit
      | Nat.succ s =>
        have ha : iBase + offset + (s + 1) = iBase + (offset + 1) + s := by
          omega
        rw [ha] at hbit
        apply hwit s (by omega) t ht hbit
        have hj : (⟨(row + 1 + s) * 64 + col0 + t, by
            have := hb (s + 1) hr t ht; omega⟩ : Fin 2048) =
            ⟨(row + (s + 1)) * 64 + col0 + t, hb (s + 1) hr t ht⟩ := by
          simp only [Fin.mk.injEq]; omega
        rw [hj]
        have hd1 : d1 ⟨(row + (s + 1)) * 64 + col0 + t,
            hb (s + 1) hr t ht⟩ =
            d ⟨(row + (s + 1)) * 64 + col0 + t, hb (s + 1) hr t ht⟩ := by
          exact hfr1 _ (fun t' ht' => by
            show (row + (s + 1)) * 64 + col0 + t ≠ row * 64 + col0 + t'
            omega)
        rw [hd1]
        exact hlit

end Chip8

namespace Chip8

/-- C7 (amended): drawing the same sprite twice at the same coordinates,
with coordinate registers distinct from the flag register and the whole
sprite in bounds, restores every pixel to its prior state; the second
draw reports collision (`VF = 1`) provided at least one sprite bit is 1
and its target pixel was unlit before the first draw. -/
theorem c7_draw_twice (m : Interpreter) (x y : Fin 16) (n : Nat)
    (hx : (x : Nat) ≠ 15) (hy : (y : Nat) ≠ 15)
    (hmem : ∀ r, r < n → m.registers.i + r < 4096)
    (hb : ∀ r, r < n → ∀ t, t < 8 →
      (m.registers.vx y + r) * 64 + m.registers.vx x + t < 2048) :
    ∃ m1 m2, handle_draw_sprite m x y n = some m1 ∧
      handle_draw_sprite m1 x y n = some m2 ∧
      (∀ j : Fin 2048, m2.display j = m.display j) ∧
      ((∃ r, ∃ hr : r < n, ∃ t, ∃ ht : t < 8,
          spriteBit m.memory (m.registers.i + r) t = true ∧
          m.display ⟨(m.registers.vx y + r) * 64 + m.registers.vx x + t,
            hb r hr t ht⟩ = false) →
        m2.registers.vx 15 = 1) := by
  have hxf : x ≠ (15 : Fin 16) := Fin.ne_of_val_ne hx
  have hyf : y ≠ (15 : Fin 16) := Fin.ne_of_val_ne hy
  have hmem' : ∀ r, r < n → m.registers.i + 0 + r < 4096 := fun r hr => by
    have := hmem r hr; omega
  obtain ⟨d1, c1, h1, hpt1, hfr1, hmono1, hwit1⟩ :=
    drawRows_spec m.memory (m.registers.vx x) m.registers.i n 0
      (m.registers.vx y) m.display false hmem' hb
  obtain ⟨d2, c2, h2, hpt2, hfr2, hmono2, hwit2⟩ :=
    drawRows_spec m.memory (m.registers.vx x) m.registers.i n 0
      (m.registers.vx y) d1 false hmem' hb
  refine ⟨{ m with
            display := d1,
            registers := { m.registers with
              vx := Function.update m.registers.vx 15
                (if c1 then 1 else 0) } },
          { m with
            display := d2,
            registers := { m.registers with
              vx := Function.update
                (Function.update m.registers.vx 15 (if c1 then 1 else 0)) 15
                (if c2 then 1 else 0) } }, ?_, ?_, ?_, ?_⟩
  · simp only [handle_draw_sprite]
    rw [h1]
  · simp only [handle_draw_sprite]
    rw [Function.update_noteq hxf, Function.update_noteq hyf, h2]
  · intro j
    show d2 j = m.display j
    by_cases hcase : ∀ r, r < n → ∀ t, t < 8 →
      (j : Nat) ≠ (m.registers.vx y + r) * 64 + m.registers.vx x + t
    · rw [hfr2 j hcase, hfr1 j hcase]
    · push_neg at hcase
      obtain ⟨r, hr, t, ht, hj⟩ := hcase
      have hjeq : j = ⟨(m.registers.vx y + r) * 64 + m.registers.vx x + t,
          hb r hr t ht⟩ := Fin.ext hj
      have hxor : ∀ a b : Bool, xor (xor a b) b = a := by decide
      rw [hjeq, hpt2 r hr t ht, hpt1 r hr t ht, hxor]
  · rintro ⟨r, hr, t, ht, hbit, hoff⟩
    show Function.update
      (Function.update m.registers.vx 15 (if c1 then 1 else 0)) 15
      (if c2 then 1 else 0) 15 = 1
    have hc2 : c2 = true := by
      apply hwit2 r hr t ht hbit
      rw [hpt1 r hr t ht, hoff]
      show (false ^^ spriteBit m.memory (m.registers.i + r) t) = true
      rw [hbit]
      rfl
    rw [Function.update_same, hc2]
    rfl

end Chip8

namespace Chip8

/-- Claim C1: the code of `handle_load_digit_sprite_location` (0xFx29)
sets `I` from the register INDEX (`x * 5`), not from the register value
(`Vx * 5`) as its own doc comment and the spec state. Running ROM
`67 0C F7 29` (set `V7 = 12`, then `F729`) yields `I = 35 = 7 * 5`,
while the documented behavior would give `I = 60 = 12 * 5`. -/
theorem c1_font_address_uses_register_index :
    obsIdx (stepN 2 (with_rom [0x67, 0x0C, 0xF7, 0x29])) = some 35 ∧
    obsVx (stepN 2 (with_rom [0x67, 0x0C, 0xF7, 0x29])) 7 = some 12 ∧
    (35 : Nat) ≠ 5 * 12 :=
  ⟨by decide, by decide, by decide⟩

/-- Claim C2: sprite drawing does not wrap toroidally. Drawing the byte
0xFF at column 62, row 0 lights linear pixels 62..69: index 64 is pixel
(0, 1) of the NEXT row, and pixel (0, 0) — where column (62+2) mod 64
would wrap to — stays unlit. Drawing at (63, 31) runs past the end of
the framebuffer array and panics (`none`). -/
theorem c2_draw_does_not_wrap :
    obsPixel (stepN 3 (with_rom [0x60, 0x3E, 0xA2, 0x06, 0xD0, 0x11, 0xFF]))
      0 = some false ∧
    obsPixel (stepN 3 (with_rom [0x60, 0x3E, 0xA2, 0x06, 0xD0, 0x11, 0xFF]))
      62 = some true ∧
    obsPixel (stepN 3 (with_rom [0x60, 0x3E, 0xA2, 0x06, 0xD0, 0x11, 0xFF]))
      64 = some true ∧
    obsPc (stepN 4 (with_rom
      [0x60, 0x3F, 0x61, 0x1F, 0xA2, 0x08, 0xD0, 0x12, 0xFF, 0xFF])) =
      Option.none :=
  ⟨by decide, by decide, by decide, by decide⟩

/-- Claim C3: `push` stores at `stack[sp + 1]`, so stack slot 0 is never
used: 15 nested calls succeed (sp = 15), but the 16th indexes
`stack[16]`, out of bounds (`none`, a panic, not a reported error); and
`pop` on an empty stack silently succeeds, wrapping `sp` to 255 and
loading `pc` from the never-written slot 0 instead of reporting an
error. -/
theorem c3_stack_overflow_panics :
    (Registers.pushN { Registers.default with pc := 0x200 } 0x300 15).map
      Registers.sp = some 15 ∧
    (Registers.pushN { Registers.default with pc := 0x200 } 0x300 16).map
      Registers.sp = Option.none ∧
    (Registers.pop { Registers.default with pc := 0x200 }).map
      Registers.sp = some 255 ∧
    (Registers.pop { Registers.default with pc := 0x200 }).map
      Registers.pc = some 0 :=
  ⟨by decide, by decide, by decide, by decide⟩

/-- Claim C4 (counterexample): executing the unknown opcode 0x8FFF does
NOT leave the engine state unchanged — the program counter advances from
0x200 to 0x202 (and the timers decrement); no error value is produced. -/
theorem c4_state_changes_on_unknown_opcode :
    decode (fetchWord (load_rom [0x8F, 0xFF]) 0x200) = Instr.unknown ∧
    obsPc (with_rom [0x8F, 0xFF]) = some 0x200 ∧
    obsPc (stepN 1 (with_rom [0x8F, 0xFF])) = some 0x202 :=
  ⟨by decide, by decide, by decide⟩

/-- Claim C4 (amended): `step` returns no error value; an instruction
word not in the opcode table is logged to stderr and skipped — `pc`
advances by 2, the timers decrement, and registers, memory, display and
keyboard are otherwise unchanged. -/
theorem c4_unknown_opcode_skipped (m : Interpreter)
    (hpc : m.registers.pc + 1 < 4096)
    (hdec : decode (fetchWord m.memory m.registers.pc) = Instr.unknown) :
    step m = some { m with registers := { m.registers with
      delay := m.registers.delay - 1,
      sound := m.registers.sound - 1,
      pc := m.registers.pc + 2 } } := by
  unfold step
  simp only []
  rw [if_pos hpc, hdec]
  rfl

/-- Witness for C4 (amended) at the concrete ROM `8F FF`. -/
theorem c4_unknown_opcode_skipped_witness :
    (testMachine [0x8F, 0xFF] 0).registers.pc + 1 < 4096 ∧
    decode (fetchWord (testMachine [0x8F, 0xFF] 0).memory
      (testMachine [0x8F, 0xFF] 0).registers.pc) = Instr.unknown ∧
    step (testMachine [0x8F, 0xFF] 0) =
      some { testMachine [0x8F, 0xFF] 0 with
        registers := { (testMachine [0x8F, 0xFF] 0).registers with
          delay := (testMachine [0x8F, 0xFF] 0).registers.delay - 1,
          sound := (testMachine [0x8F, 0xFF] 0).registers.sound - 1,
          pc := (testMachine [0x8F, 0xFF] 0).registers.pc + 2 } } :=
  ⟨by decide, by decide,
    c4_unknown_opcode_skipped (testMachine [0x8F, 0xFF] 0)
      (by decide) (by decide)⟩

/-- Claim C5: while an Fx0A wait is unresolved (`None` or `Waiting`
keyboard state), stepping the instruction leaves `pc` and the registers
unchanged; a key press alone never changes the wait state; a key release
during `Waiting` resolves it to `Pressed` with that key; and once
resolved, the next step stores the key into `Vx` and advances `pc` by
exactly 2. -/
theorem c5_wait_for_keypress (m : Interpreter) (x : Fin 16) (key : Nat)
    (hpc : m.registers.pc + 1 < 4096)
    (hdec : decode (fetchWord m.memory m.registers.pc) = Instr.waitKey x)
    (hkey : key < 16) :
    ((m.keyboard.waiting_state = WaitingState.none ∨
        m.keyboard.waiting_state = WaitingState.waiting) →
      ∃ m', step m = some m' ∧ m'.registers.pc = m.registers.pc ∧
        m'.registers.vx = m.registers.vx)
    ∧ (∀ kb', m.keyboard.press_key key = some kb' →
        kb'.waiting_state = m.keyboard.waiting_state)
    ∧ (m.keyboard.waiting_state = WaitingState.waiting →
        ∀ kb', m.keyboard.release_key key = some kb' →
          kb'.waiting_state = WaitingState.pressed key)
    ∧ (m.keyboard.waiting_state = WaitingState.pressed key →
        ∃ m', step m = some m' ∧ m'.registers.vx x = key ∧
          m'.registers.pc = m.registers.pc + 2) := by
  refine ⟨?_, ?_, ?_, ?_⟩
  · rintro (hw | hw)
    · have h : step m = some { m with
          registers := { m.registers with
            delay := m.registers.delay - 1, sound := m.registers.sound - 1 },
          keyboard := { m.keyboard with
            waiting_state := WaitingState.waiting } } := by
        unfold step
        rw [if_pos hpc, hdec]
        simp [exec, handle_wait_for_keypress, Keyboard.wait_for_keypress, hw]
      exact ⟨_, h, rfl, rfl⟩
    · have h : step m = some { m with
          registers := { m.registers with
            delay := m.registers.delay - 1,
            sound := m.registers.sound - 1 } } := by
        unfold step
        rw [if_pos hpc, hdec]
        simp [exec, handle_wait_for_keypress, Keyboard.wait_for_keypress, hw]
      exact ⟨_, h, rfl, rfl⟩
  · intro kb' hkb'
    simp [Keyboard.press_key, hkey] at hkb'
    subst hkb'
    rfl
  · intro hw kb' hkb'
    simp [Keyboard.release_key, hkey, hw] at hkb'
    subst hkb'
    rfl
  · intro hw
    have h : step m = some { m with
        registers := { m.registers with
          delay := m.registers.delay - 1, sound := m.registers.sound - 1,
          vx := Function.update m.registers.vx x key,
          pc := m.registers.pc + 2 },
        keyboard := { m.keyboard with
          waiting_state := WaitingState.none } } := by
      unfold step
      rw [if_pos hpc, hdec]
      simp [exec, handle_wait_for_keypress, Keyboard.wait_for_keypress, hw]
    exact ⟨_, h, by simp, rfl⟩

/-- Witness for C5 at ROM `F3 0A` with the wait already resolved with
key 5. -/
theorem c5_wait_for_keypress_witness :
    (keyMachine [0xF3, 0x0A] (WaitingState.pressed 5)).registers.pc + 1 <
      4096 ∧
    decode (fetchWord (keyMachine [0xF3, 0x0A]
        (WaitingState.pressed 5)).memory
      (keyMachine [0xF3, 0x0A] (WaitingState.pressed 5)).registers.pc) =
      Instr.waitKey 3 ∧
    (5 : Nat) < 16 ∧
    ((((keyMachine [0xF3, 0x0A] (WaitingState.pressed 5)).keyboard.waiting_state =
          WaitingState.none ∨
        (keyMachine [0xF3, 0x0A] (WaitingState.pressed 5)).keyboard.waiting_state =
          WaitingState.waiting) →
      ∃ m', step (keyMachine [0xF3, 0x0A] (WaitingState.pressed 5)) = some m' ∧
        m'.registers.pc =
          (keyMachine [0xF3, 0x0A] (WaitingState.pressed 5)).registers.pc ∧
        m'.registers.vx =
          (keyMachine [0xF3, 0x0A] (WaitingState.pressed 5)).registers.vx)
    ∧ (∀ kb', (keyMachine [0xF3, 0x0A]
          (WaitingState.pressed 5)).keyboard.press_key 5 = some kb' →
        kb'.waiting_state =
          (keyMachine [0xF3, 0x0A] (WaitingState.pressed 5)).keyboard.waiting_state)
    ∧ ((keyMachine [0xF3, 0x0A] (WaitingState.pressed 5)).keyboard.waiting_state =
          WaitingState.waiting →
        ∀ kb', (keyMachine [0xF3, 0x0A]
            (WaitingState.pressed 5)).keyboard.release_key 5 = some kb' →
          kb'.waiting_state = WaitingState.pressed 5)
    ∧ ((keyMachine [0xF3, 0x0A] (WaitingState.pressed 5)).keyboard.waiting_state =
          WaitingState.pressed 5 →
        ∃ m', step (keyMachine [0xF3, 0x0A] (WaitingState.pressed 5)) =
            some m' ∧
          m'.registers.vx 3 = 5 ∧
          m'.registers.pc =
            (keyMachine [0xF3, 0x0A]
              (WaitingState.pressed 5)).registers.pc + 2)) :=
  ⟨by decide, by decide, by decide,
    c5_wait_for_keypress (keyMachine [0xF3, 0x0A] (WaitingState.pressed 5))
      3 5 (by decide) (by decide) (by decide)⟩

/-- Claim C6: a 0x2nnn call executed at pc = 0x200 with an empty stack
leaves sp = 1, pc = nnn and 0x200 saved on the stack; executing the
0x00EE return there restores sp = 0 and sets pc = 0x202, the instruction
after the call. -/
theorem c6_call_then_return (m : Interpreter) (nnn : Nat)
    (hpc : m.registers.pc = 0x200) (hsp : m.registers.sp = 0)
    (hcall : decode (fetchWord m.memory 0x200) = Instr.call nnn)
    (hret : decode (fetchWord m.memory nnn) = Instr.ret)
    (hn : nnn + 1 < 4096) :
    ∃ m1 m2, step m = some m1 ∧
      m1.registers.sp = 1 ∧ m1.registers.pc = nnn ∧
      m1.registers.stack ⟨1, by omega⟩ = 0x200 ∧
      step m1 = some m2 ∧ m2.registers.sp = 0 ∧ m2.registers.pc = 0x202 := by
  have h1 : step m = some
      { m with registers := { m.registers with
          delay := m.registers.delay - 1,
          sound := m.registers.sound - 1,
          sp := 1,
          stack := Function.update m.registers.stack ⟨1, by omega⟩ 0x200,
          pc := nnn } } := by
    unfold step
    simp only [hpc]
    rw [if_pos (by omega), hcall]
    simp [exec, Registers.push, hsp, hpc]
  have h2 : step { m with registers := { m.registers with
          delay := m.registers.delay - 1,
          sound := m.registers.sound - 1,
          sp := 1,
          stack := Function.update m.registers.stack ⟨1, by omega⟩ 0x200,
          pc := nnn } } = some
      { m with registers := { m.registers with
          delay := m.registers.delay - 1 - 1,
          sound := m.registers.sound - 1 - 1,
          sp := 0,
          stack := Function.update m.registers.stack ⟨1, by omega⟩ 0x200,
          pc := 0x202 } } := by
    unfold step
    simp only []
    rw [if_pos (by omega), hret]
    simp [exec, Registers.pop, advance, Function.update_same]
  exact ⟨_, _, h1, rfl, rfl, by simp, h2, rfl, rfl⟩

/-- Witness for C6 at the ROM `22 06 00 E0 00 E0 00 EE` (the repository's
own call/return test ROM shape): call 0x206, return there. -/
theorem c6_call_then_return_witness :
    decode (fetchWord (testMachine
      [0x22, 0x06, 0x00, 0xE0, 0x00, 0xE0, 0x00, 0xEE] 0).memory 0x200) =
      Instr.call 0x206 ∧
    decode (fetchWord (testMachine
      [0x22, 0x06, 0x00, 0xE0, 0x00, 0xE0, 0x00, 0xEE] 0).memory 0x206) =
      Instr.ret ∧
    (0x206 : Nat) + 1 < 4096 ∧
    (∃ m1 m2, step (testMachine
        [0x22, 0x06, 0x00, 0xE0, 0x00, 0xE0, 0x00, 0xEE] 0) = some m1 ∧
      m1.registers.sp = 1 ∧ m1.registers.pc = 0x206 ∧
      m1.registers.stack ⟨1, by omega⟩ = 0x200 ∧
      step m1 = some m2 ∧ m2.registers.sp = 0 ∧ m2.registers.pc = 0x202) :=
  ⟨by decide, by decide, by decide,
    c6_call_then_return (testMachine
        [0x22, 0x06, 0x00, 0xE0, 0x00, 0xE0, 0x00, 0xEE] 0) 0x206
      rfl rfl (by decide) (by decide) (by decide)⟩

/-- Claim C7 (counterexample): drawing a 1-byte all-zero sprite twice at
the same coordinates reports collision `VF = 0` on the second draw, not
`VF = 1` as claimed. -/
theorem c7_blank_sprite_no_collision :
    ((handle_draw_sprite (testMachine [0xFF, 0xFF] 0x202) 0 1 1).bind
      (fun m1 => handle_draw_sprite m1 0 1 1)).map
      (fun m2 => m2.registers.vx 15) = some 0 := by
  decide

/-- Witness for C7 (amended) with the sprite byte 0xFF at (0, 0) on a
cleared display. -/
theorem c7_draw_twice_witness :
    ((0 : Fin 16) : Nat) ≠ 15 ∧ ((1 : Fin 16) : Nat) ≠ 15 ∧
    (∀ r, r < 1 →
      (testMachine [0x00, 0x00, 0xFF] 0x202).registers.i + r < 4096) ∧
    (∀ r, r < 1 → ∀ t, t < 8 →
      ((testMachine [0x00, 0x00, 0xFF] 0x202).registers.vx 1 + r) * 64 +
        (testMachine [0x00, 0x00, 0xFF] 0x202).registers.vx 0 + t < 2048) ∧
    (∃ m1 m2,
      handle_draw_sprite (testMachine [0x00, 0x00, 0xFF] 0x202) 0 1 1 =
        some m1 ∧
      handle_draw_sprite m1 0 1 1 = some m2 ∧
      (∀ j : Fin 2048, m2.display j =
        (testMachine [0x00, 0x00, 0xFF] 0x202).display j) ∧
      ((∃ r, ∃ hr : r < 1, ∃ t, ∃ ht : t < 8,
          spriteBit (testMachine [0x00, 0x00, 0xFF] 0x202).memory
            ((testMachine [0x00, 0x00, 0xFF] 0x202).registers.i + r) t =
            true ∧
          (testMachine [0x00, 0x00, 0xFF] 0x202).display
            ⟨(0 + r) * 64 + 0 + t, by omega⟩ = false) →
        m2.registers.vx 15 = 1)) :=
  ⟨by decide, by decide, by decide, by decide,
    c7_draw_twice (testMachine [0x00, 0x00, 0xFF] 0x202) 0 1 1
      (by decide) (by decide) (by decide) (by decide)⟩

end Chip8

namespace Chip8

/-- Claim C8: for every flag-producing arithmetic/shift instruction
(0x8xy4 add, 0x8xy5/0x8xy7 subtract, 0x8xy6/0x8xyE shift) with
destination register 15, the final value of register 15 is the
carry/borrow/shifted-out-bit flag computed from the pre-instruction
values, not the arithmetic result: the flag write comes after the result
write and overwrites it. -/
theorem c8_flag_overwrites_result (r : Registers) (y : Fin 16) :
    (handle_add_register_register r 15 y).vx 15 =
      (if 256 ≤ r.vx 15 + r.vx y then 1 else 0) ∧
    (handle_sub_register_register r 15 y).vx 15 =
      (if r.vx y < r.vx 15 then 1 else 0) ∧
    (handle_sub_register_register_negated r 15 y).vx 15 =
      (if r.vx 15 < r.vx y then 1 else 0) ∧
    (handle_shift_right_register_one r 15 y).vx 15 =
      (if r.vx 15 &&& 1 = 1 then 1 else 0) ∧
    (handle_shift_left_register_one r 15 y).vx 15 =
      (if 1 < r.vx 15 &&& 128 then 1 else 0) := by
  refine ⟨?_, ?_, ?_, ?_, ?_⟩
  · simp [handle_add_register_register]
  · simp [handle_sub_register_register]
  · simp [handle_sub_register_register_negated]
  · simp [handle_shift_right_register_one]
  · simp [handle_shift_left_register_one]

/-- Claim C9: the engine is deterministic — `with_rom` takes only the
ROM bytes and seeds the RNG with the fixed constant 09122022, so two
engines built from equal ROMs and run over equal event traces (steps and
key presses/releases, 0xCxkk included) are in identical states, and the
constructed engine's RNG state is always the constant seed. -/
theorem c9_deterministic (rom1 rom2 : List Nat) (t1 t2 : List Event)
    (hr : rom1 = rom2) (ht : t1 = t2) :
    runTrace t1 (with_rom rom1) = runTrace t2 (with_rom rom2) ∧
    ∀ m, with_rom rom1 = some m → m.rng = CHACHA_SEED := by
  subst hr
  subst ht
  refine ⟨rfl, ?_⟩
  intro m hm
  unfold with_rom at hm
  split at hm
  · cases hm
    rfl
  · exact Option.noConfusion hm

/-- Witness for C9: a ROM whose single instruction is the random
instruction 0xC0FF, stepped once in both runs. -/
theorem c9_deterministic_witness :
    ([0xC0, 0xFF] : List Nat) = [0xC0, 0xFF] ∧
    ([Event.step] : List Event) = [Event.step] ∧
    (runTrace [Event.step] (with_rom [0xC0, 0xFF]) =
        runTrace [Event.step] (with_rom [0xC0, 0xFF]) ∧
      ∀ m, with_rom [0xC0, 0xFF] = some m → m.rng = CHACHA_SEED) :=
  ⟨rfl, rfl, c9_deterministic [0xC0, 0xFF] [0xC0, 0xFF]
    [Event.step] [Event.step] rfl rfl⟩

/-- Auxiliary: characterization of the 0xFx55 store loop — it succeeds
when every touched address is in range, writes `vx[offset + t]` to
address `iBase + offset + t` for each of the remaining iterations, and
leaves every other memory cell unchanged. -/
theorem store_regs_loop_spec (vx : Fin 16 → Nat) (iBase : Nat) :
    ∀ (rem offset : Nat) (mem : Mem) (h16 : offset + rem ≤ 16)
      (h4096 : iBase + offset + rem ≤ 4096),
      ∃ mem', store_regs_loop vx iBase rem offset mem = some mem' ∧
        (∀ t (ht : t < rem),
          mem' ⟨iBase + offset + t, by omega⟩ = vx ⟨offset + t, by omega⟩) ∧
        (∀ j : Fin 4096,
          ((j : Nat) < iBase + offset ∨ iBase + offset + rem ≤ (j : Nat)) →
          mem' j = mem j) := by
  intro rem
  induction rem with
  | zero =>
    intro offset mem _ _
    exact ⟨mem, rfl, by omega, fun j _ => rfl⟩
  | succ k ih =>
    intro offset mem h16 h4096
    obtain ⟨mem', hloop, hpt, hfr⟩ :=
      ih (offset + 1) (Function.update mem ⟨iBase + offset, by omega⟩
        (vx ⟨offset, by omega⟩)) (by omega) (by omega)
    refine ⟨mem', ?_, ?_, ?_⟩
    · rw [store_regs_loop, dif_pos ⟨by omega, by omega⟩]
      exact hloop
    · intro t ht
      match t with
      | 0 =>
        have hj : (⟨iBase + offset + 0, by omega⟩ : Fin 4096) =
            ⟨iBase + offset, by omega⟩ := by
          simp only [Fin.mk.injEq]; omega
        rw [hj, hfr ⟨iBase + offset, by omega⟩
          (by left; show iBase + offset < iBase + (offset + 1); omega)]
        simp
      | Nat.succ s =>
        have hj : (⟨iBase + offset + (s + 1), by omega⟩ : Fin 4096) =
            ⟨iBase + (offset + 1) + s, by omega⟩ := by
          simp only [Fin.mk.injEq]; omega
        have hx : (⟨offset + (s + 1), by omega⟩ : Fin 16) =
            ⟨(offset + 1) + s, by omega⟩ := by
          simp only [Fin.mk.injEq]; omega
        rw [hj, hx, hpt s (by omega)]
    · intro j hj
      rw [hfr j (by omega)]
      rw [Function.update_noteq
        (Fin.ne_of_val_ne (show (j : Nat) ≠ iBase + offset by omega))]

/-- Auxiliary: characterization of the 0xFx65 load loop — it succeeds
when every touched address is in range, loads `memory[iBase + offset + t]`
into `vx[offset + t]`, and leaves every other register unchanged. -/
theorem load_regs_loop_spec (mem : Mem) (iBase : Nat) :
    ∀ (rem offset : Nat) (vx : Fin 16 → Nat) (h16 : offset + rem ≤ 16)
      (h4096 : iBase + offset + rem ≤ 4096),
      ∃ vx', load_regs_loop mem iBase rem offset vx = some vx' ∧
        (∀ t (ht : t < rem),
          vx' ⟨offset + t, by omega⟩ = mem ⟨iBase + offset + t, by omega⟩) ∧
        (∀ j : Fin 16,
          ((j : Nat) < offset ∨ offset + rem ≤ (j : Nat)) → vx' j = vx j) := by
  intro rem
  induction rem with
  | zero =>
    intro offset vx _ _
    exact ⟨vx, rfl, by omega, fun j _ => rfl⟩
  | succ k ih =>
    intro offset vx h16 h4096
    obtain ⟨vx', hloop, hpt, hfr⟩ :=
      ih (offset + 1) (Function.update vx ⟨offset, by omega⟩
        (mem ⟨iBase + offset, by omega⟩)) (by omega) (by omega)
    refine ⟨vx', ?_, ?_, ?_⟩
    · rw [load_regs_loop, dif_pos ⟨by omega, by omega⟩]
      exact hloop
    · intro t ht
      match t with
      | 0 =>
        have hj : (⟨offset + 0, by omega⟩ : Fin 16) = ⟨offset, by omega⟩ := by
          simp only [Fin.mk.injEq]; omega
        have hi : (⟨iBase + offset + 0, by omega⟩ : Fin 4096) =
            ⟨iBase + offset, by omega⟩ := by
          simp only [Fin.mk.injEq]; omega
        rw [hj, hi, hfr ⟨offset, by omega⟩
          (by left; show offset < offset + 1; omega)]
        simp
      | Nat.succ s =>
        have hj : (⟨offset + (s + 1), by omega⟩ : Fin 16) =
            ⟨(offset + 1) + s, by omega⟩ := by
          simp only [Fin.mk.injEq]; omega
        have hi : (⟨iBase + offset + (s + 1), by omega⟩ : Fin 4096) =
            ⟨iBase + (offset + 1) + s, by omega⟩ := by
          simp only [Fin.mk.injEq]; omega
        rw [hj, hi, hpt s (by omega)]
    · intro j hj
      rw [hfr j (by omega)]
      rw [Function.update_noteq
        (Fin.ne_of_val_ne (show (j : Nat) ≠ offset by omega))]

/-- Claim C10: when the transfers stay in the 4096-byte space, 0xFx55
leaves all registers (including `I`) unchanged and writes exactly the
x+1 memory cells at `I..I+x`; 0xFx65 leaves memory and all non-`vx`
register state (including `I`) unchanged, loads `V0..Vx` from memory,
and leaves the registers above index x unchanged. -/
theorem c10_store_load_frame (m : Interpreter) (x : Fin 16)
    (hi : m.registers.i + (x : Nat) ≤ 4095) :
    ∃ ms ml,
      handle_store_registers_in_memory m x = some ms ∧
      ms.registers = m.registers ∧
      (∀ t (ht : t ≤ (x : Nat)),
        ms.memory ⟨m.registers.i + t, by omega⟩ =
          m.registers.vx ⟨t, by omega⟩) ∧
      (∀ j : Fin 4096,
        ((j : Nat) < m.registers.i ∨ m.registers.i + (x : Nat) < (j : Nat)) →
        ms.memory j = m.memory j) ∧
      handle_load_registers_from_memory m x = some ml ∧
      ml.memory = m.memory ∧
      ml.registers.i = m.registers.i ∧
      ml.registers.pc = m.registers.pc ∧
      ml.registers.sp = m.registers.sp ∧
      ml.registers.delay = m.registers.delay ∧
      ml.registers.sound = m.registers.sound ∧
      ml.registers.stack = m.registers.stack ∧
      (∀ t (ht : t ≤ (x : Nat)),
        ml.registers.vx ⟨t, by omega⟩ =
          m.memory ⟨m.registers.i + t, by omega⟩) ∧
      (∀ j : Fin 16, (x : Nat) < (j : Nat) →
        ml.registers.vx j = m.registers.vx j) := by
  obtain ⟨mem', hsl, hspt, hsfr⟩ :=
    store_regs_loop_spec m.registers.vx m.registers.i ((x : Nat) + 1) 0
      m.memory (by omega) (by omega)
  obtain ⟨vx', hll, hlpt, hlfr⟩ :=
    load_regs_loop_spec m.memory m.registers.i ((x : Nat) + 1) 0
      m.registers.vx (by omega) (by omega)
  refine ⟨{ m with memory := mem' },
          { m with registers := { m.registers with vx := vx' } },
          ?_, rfl, ?_, ?_, ?_, rfl, rfl, rfl, rfl, rfl, rfl, rfl, ?_, ?_⟩
  · rw [handle_store_registers_in_memory, hsl]
    rfl
  · intro t ht
    have := hspt t (by omega)
    simpa using this
  · intro j hj
    exact hsfr j (by omega)
  · rw [handle_load_registers_from_memory, hll]
    rfl
  · intro t ht
    have := hlpt t (by omega)
    simpa using this
  · intro j hj
    exact hlfr j (by omega)

/-- Witness for C10 with `I = 0x400` and `x = 5`. -/
theorem c10_store_load_frame_witness :
    (testMachine [] 0x400).registers.i + ((5 : Fin 16) : Nat) ≤ 4095 ∧
    (∃ ms ml,
      handle_store_registers_in_memory (testMachine [] 0x400) 5 = some ms ∧
      ms.registers = (testMachine [] 0x400).registers ∧
      (∀ t (ht : t ≤ ((5 : Fin 16) : Nat)),
        ms.memory ⟨0x400 + t, by omega⟩ =
          (testMachine [] 0x400).registers.vx ⟨t, by omega⟩) ∧
      (∀ j : Fin 4096,
        ((j : Nat) < (testMachine [] 0x400).registers.i ∨
          (testMachine [] 0x400).registers.i + ((5 : Fin 16) : Nat) <
            (j : Nat)) →
        ms.memory j = (testMachine [] 0x400).memory j) ∧
      handle_load_registers_from_memory (testMachine [] 0x400) 5 = some ml ∧
      ml.memory = (testMachine [] 0x400).memory ∧
      ml.registers.i = (testMachine [] 0x400).registers.i ∧
      ml.registers.pc = (testMachine [] 0x400).registers.pc ∧
      ml.registers.sp = (testMachine [] 0x400).registers.sp ∧
      ml.registers.delay = (testMachine [] 0x400).registers.delay ∧
      ml.registers.sound = (testMachine [] 0x400).registers.sound ∧
      ml.registers.stack = (testMachine [] 0x400).registers.stack ∧
      (∀ t (ht : t ≤ ((5 : Fin 16) : Nat)),
        ml.registers.vx ⟨t, by omega⟩ =
          (testMachine [] 0x400).memory ⟨0x400 + t, by omega⟩) ∧
      (∀ j : Fin 16, ((5 : Fin 16) : Nat) < (j : Nat) →
        ml.registers.vx j = (testMachine [] 0x400).registers.vx j)) :=
  ⟨by decide, c10_store_load_frame (testMachine [] 0x400) 5 (by decide)⟩

end Chip8
